import Mathlib

/-!
Verification of the Component-checker scan core (`src/code.js`).

The development shallowly embeds the two core functions of the plugin —
`findAllComponentInstances` (the instance locator) and
`scanFrameForComponents` (the link auditor) — together with the
`scan-frame` branch of the message handler, and proves or refutes the
frozen claims about them.

Modelling notes, traced against the JavaScript source:

* A document node is a tree with an id, a display name, a type tag and an
  ordered list of children (`'children' in node` is modelled by the list
  being empty or not; a node without the `children` capability is a node
  with an empty list, which behaves identically in the source).
* In the source, the emitted record stores a *reference* to the local
  `currentPath` array, and immediately afterwards (for INSTANCE nodes)
  `currentPath.push(node.name)` mutates that same array.  The record is
  never written to again, so the observable, final value of the record's
  `parentPath` field is `parentPath ++ [node.name]` for an INSTANCE node.
  The embedding stores that final value directly.  `parentName` is read
  off `currentPath` *before* the push, so it comes from the incoming
  chain.
* `getMainComponentAsync` is modelled as an explicit resolution oracle
  `Node → Resolution`: it can throw (`Resolution.err`), return nothing
  (`Resolution.ok none`), or return a main component whose `remote`
  property may be absent (`none`), `false` or `true` — the source tests
  `mainComponent.remote === true`, i.e. equality with `some true`.
* JavaScript numbers: the parent lookup compares
  `inst.level === instanceData.level - 1` where `level - 1` can be `-1`.
  Levels are naturals here, so the comparison is rendered as
  `inst.level + 1 == r.level`, which agrees with the integer comparison
  on all naturals.
-/

inductive NodeType where
  | INSTANCE
  | FRAME
  | COMPONENT
  | COMPONENT_SET
  | OTHER
deriving DecidableEq, Repr

inductive Node where
  | mk (id name : String) (type : NodeType) (children : List Node)
deriving Repr

def Node.id : Node → String
  | .mk i _ _ _ => i

def Node.name : Node → String
  | .mk _ n _ _ => n

def Node.type : Node → NodeType
  | .mk _ _ t _ => t

def Node.children : Node → List Node
  | .mk _ _ _ c => c

/-- The record pushed onto `instances` in `findAllComponentInstances`.
`parentPath` holds the observable final value of the aliased array (see
the modelling notes at the top of the file). -/
structure InstanceRecord where
  node : Node
  level : Nat
  parentPath : List String
  parentName : Option String
deriving Repr

mutual

/-- `findAllComponentInstances(node, level, parentPath)` from
`src/code.js` lines 7–29.  For an INSTANCE node a record is emitted
first, then the children are traversed with the extended path and
incremented level; for any other node level and path are passed through
unchanged. -/
def findAllComponentInstances : Node → Nat → List String → List InstanceRecord
  | Node.mk i n NodeType.INSTANCE cs, level, parentPath =>
      { node := Node.mk i n NodeType.INSTANCE cs
        level := level
        parentPath := parentPath ++ [n]
        parentName := parentPath.getLast? }
        :: findChildren cs (level + 1) (parentPath ++ [n])
  | Node.mk _ _ _ cs, level, parentPath =>
      findChildren cs level parentPath

/-- The `for (const child of node.children)` loop of
`findAllComponentInstances`, concatenating the records of each child in
original order. -/
def findChildren : List Node → Nat → List String → List InstanceRecord
  | [], _, _ => []
  | c :: rest, level, parentPath =>
      findAllComponentInstances c level parentPath ++ findChildren rest level parentPath

end

structure MainComponent where
  id : String
  remote : Option Bool
deriving Repr, DecidableEq

/-- Outcome of `instance.getMainComponentAsync()`: the promise either
resolves (possibly to `null`) or rejects. -/
inductive Resolution where
  | ok : Option MainComponent → Resolution
  | err : Resolution
deriving Repr, DecidableEq

/-- `isComponentLinked(instance)` from `src/code.js` lines 32–49,
parameterised by the resolution oracle.  `true` exactly when the lookup
resolves to a main component whose `remote` property is exactly `true`;
a `null` result or a thrown error yields `false`. -/
def isComponentLinked (resolve : Node → Resolution) (inst : Node) : Bool :=
  match resolve inst with
  | Resolution.ok (some mc) => mc.remote == some true
  | Resolution.ok none => false
  | Resolution.err => false

/-- One element of the `issues` array built in `scanFrameForComponents`.
The `type` field is the constant string `'NOT_LINKED'` in the source. -/
structure Issue where
  name : String
  id : String
  type : String
  level : Nat
  parentPath : List String
  parentName : Option String
  parentId : Option String
deriving Repr, DecidableEq

/-- The parent-id lookup of `scanFrameForComponents` (`src/code.js`
lines 63–74): if the record's `parentPath` is non-empty, search the full
`instances` list for the first record whose node name equals the *last*
element of this record's `parentPath` and whose level is this record's
level minus one; on a hit take that node's id, otherwise `null`. -/
def computeParentId (instances : List InstanceRecord) (r : InstanceRecord) : Option String :=
  match r.parentPath.getLast? with
  | none => none
  | some lastName =>
      match instances.find? (fun inst =>
          inst.node.name == lastName && inst.level + 1 == r.level) with
      | some parentInstance => some parentInstance.node.id
      | none => none

/-- The issue object pushed for one unlinked record (`src/code.js`
lines 76–84), its parent id computed against the full record list. -/
def issueOf (all : List InstanceRecord) (r : InstanceRecord) : Issue :=
  { name := r.node.name
    id := r.node.id
    type := "NOT_LINKED"
    level := r.level
    parentPath := r.parentPath
    parentName := r.parentName
    parentId := computeParentId all r }

/-- The body of the `for (const instanceData of instances)` loop of
`scanFrameForComponents`: linked records are skipped, each unlinked
record is turned into an issue (in traversal order) with its parent id
computed against the full record list.  (`parentIdMap` in the source is
written but never read, so it has no observable effect.) -/
def scanIssues (resolve : Node → Resolution) (all : List InstanceRecord)
    (rs : List InstanceRecord) : List Issue :=
  rs.filterMap (fun r =>
    if isComponentLinked resolve r.node then
      none
    else
      some (issueOf all r))

structure ScanResult where
  totalComponents : Nat
  totalIssues : Nat
  issues : List Issue
  frameName : String
deriving Repr, DecidableEq

/-- `scanFrameForComponents(frame)` from `src/code.js` lines 52–97,
parameterised by the resolution oracle. -/
def scanFrameForComponents (resolve : Node → Resolution) (frame : Node) : ScanResult :=
  let instances := findAllComponentInstances frame 0 []
  let issues := scanIssues resolve instances instances
  { totalComponents := instances.length
    totalIssues := issues.length
    issues := issues
    frameName := frame.name }

/-- Root types accepted by the `scan-frame` message handler
(`src/code.js` line 121): FRAME, COMPONENT or COMPONENT_SET. -/
def isValidRootType (t : NodeType) : Bool :=
  t == NodeType.FRAME || t == NodeType.COMPONENT || t == NodeType.COMPONENT_SET

/-- The `scan-frame` branch of `figma.ui.onmessage` (`src/code.js`
lines 106–137): an empty selection or a selected node whose type is not
an accepted container type is rejected with an error message before any
traversal; otherwise the scan runs on the first selected node and its
`ScanResult` is delivered. -/
def handleScanFrame (resolve : Node → Resolution) (selection : List Node) :
    Except String ScanResult :=
  match selection with
  | [] => Except.error "Por favor, selecciona un frame para escanear."
  | selectedNode :: _ =>
      if isValidRootType selectedNode.type then
        Except.ok (scanFrameForComponents resolve selectedNode)
      else
        Except.error "Por favor, selecciona un Frame, Component o Component Set."

/-! ## Specification-side view of the tree

The claims speak about INSTANCE *positions* in the tree: which nodes are
instances, which instances are strict ancestors of which, and in what
order a depth-first pre-order traversal meets them.  To state this
independently of the traversal code, positions are addressed by the list
of child indices from the root, and the locator's output is compared
against functions that read the tree off an address. -/

/-- The node sitting at address `a` (a list of child indices) below `t`,
if the address is valid. -/
def subtreeAt : Node → List Nat → Option Node
  | t, [] => some t
  | t, i :: rest =>
      match t.children[i]? with
      | some c => subtreeAt c rest
      | none => none

/-- Names of the INSTANCE nodes strictly above the node at address `a`,
listed outermost to innermost (the ancestor-instance name chain of the
spec). -/
def chainAt : Node → List Nat → List String
  | _, [] => []
  | t, i :: rest =>
      match t.children[i]? with
      | some c =>
          (if t.type = NodeType.INSTANCE then [t.name] else []) ++ chainAt c rest
      | none => []

/-- Number of INSTANCE-typed strict ancestors of the node at address `a`
within `t`. -/
def instanceAncestorCount (t : Node) (a : List Nat) : Nat :=
  (chainAt t a).length

mutual

/-- Addresses of all INSTANCE nodes of `t`, in depth-first pre-order. -/
def instanceAddrs : Node → List (List Nat)
  | Node.mk _ _ ty cs =>
      (if ty = NodeType.INSTANCE then [([] : List Nat)] else [])
        ++ instanceAddrsFrom 0 cs

/-- Addresses of the INSTANCE nodes inside a run of children, the first
child carrying index `i`. -/
def instanceAddrsFrom : Nat → List Node → List (List Nat)
  | _, [] => []
  | i, c :: rest =>
      (instanceAddrs c).map (fun a => i :: a) ++ instanceAddrsFrom (i + 1) rest

end

mutual

/-- Number of INSTANCE-typed nodes in the tree. -/
def countInstanceNodes : Node → Nat
  | Node.mk _ _ ty cs =>
      (if ty = NodeType.INSTANCE then 1 else 0) + countInstanceNodesList cs

def countInstanceNodesList : List Node → Nat
  | [] => 0
  | c :: rest => countInstanceNodes c + countInstanceNodesList rest

end

/-- The record the locator is expected to emit for the instance at
address `a`, when the traversal entered `t` with the given `level` and
`parentPath`: the node itself, the level increased by the number of
INSTANCE strict ancestors inside `t`, and the (aliased, hence
self-including) name chain. -/
def specRecord (t : Node) (a : List Nat) (level : Nat) (parentPath : List String) :
    InstanceRecord :=
  { node := (subtreeAt t a).getD t
    level := level + instanceAncestorCount t a
    parentPath := parentPath ++ chainAt t a ++ [((subtreeAt t a).getD t).name]
    parentName := (parentPath ++ chainAt t a).getLast? }

/-! ## Basic lemmas -/

@[simp] theorem Node.id_mk (i n : String) (ty : NodeType) (cs : List Node) :
    (Node.mk i n ty cs).id = i := rfl

@[simp] theorem Node.name_mk (i n : String) (ty : NodeType) (cs : List Node) :
    (Node.mk i n ty cs).name = n := rfl

@[simp] theorem Node.type_mk (i n : String) (ty : NodeType) (cs : List Node) :
    (Node.mk i n ty cs).type = ty := rfl

@[simp] theorem Node.children_mk (i n : String) (ty : NodeType) (cs : List Node) :
    (Node.mk i n ty cs).children = cs := rfl

theorem Node.sizeOf_lt_of_mem_children {c : Node} {i n : String} {ty : NodeType}
    {cs : List Node} (hc : c ∈ cs) : sizeOf c < sizeOf (Node.mk i n ty cs) := by
  have := List.sizeOf_lt_of_mem hc
  simp only [Node.mk.sizeOf_spec]
  omega

/-- Strong induction over the node tree: to prove `P t` it suffices to
prove it for every node assuming it for all the node's children. -/
theorem Node.strongInduction (P : Node → Prop)
    (h : ∀ i n ty cs, (∀ c ∈ cs, P c) → P (Node.mk i n ty cs)) :
    ∀ t, P t
  | Node.mk i n ty cs => h i n ty cs (fun c hc => Node.strongInduction P h c)
termination_by t => sizeOf t
decreasing_by exact Node.sizeOf_lt_of_mem_children hc

@[simp] theorem subtreeAt_nil (t : Node) : subtreeAt t [] = some t := rfl

@[simp] theorem chainAt_nil (t : Node) : chainAt t [] = [] := rfl

@[simp] theorem instanceAncestorCount_nil (t : Node) : instanceAncestorCount t [] = 0 := rfl

theorem subtreeAt_cons {t c : Node} {j : Nat} (hj : t.children[j]? = some c)
    (a : List Nat) : subtreeAt t (j :: a) = subtreeAt c a := by
  simp [subtreeAt, hj]

theorem chainAt_cons {t c : Node} {j : Nat} (hj : t.children[j]? = some c)
    (a : List Nat) :
    chainAt t (j :: a)
      = (if t.type = NodeType.INSTANCE then [t.name] else []) ++ chainAt c a := by
  simp [chainAt, hj]

/-- Passing one tree level commutes with `specRecord`, provided the
address below is valid. -/
theorem specRecord_cons {t c m : Node} {j : Nat} {a : List Nat}
    (hj : t.children[j]? = some c) (hm : subtreeAt c a = some m)
    (level : Nat) (parentPath : List String) :
    specRecord t (j :: a) level parentPath
      = specRecord c a
          (level + (if t.type = NodeType.INSTANCE then 1 else 0))
          (parentPath ++ (if t.type = NodeType.INSTANCE then [t.name] else [])) := by
  have hsub : subtreeAt t (j :: a) = some m := by
    rw [subtreeAt_cons hj, hm]
  by_cases hty : t.type = NodeType.INSTANCE <;>
    simp [specRecord, instanceAncestorCount, hsub, hm, chainAt_cons hj, hty,
      List.append_assoc, Nat.add_assoc, Nat.add_comm 1]

theorem mem_instanceAddrsFrom {x : List Nat} {i : Nat} {cs : List Node} :
    x ∈ instanceAddrsFrom i cs
      ↔ ∃ k c a, cs[k]? = some c ∧ x = (i + k) :: a ∧ a ∈ instanceAddrs c := by
  induction cs generalizing i with
  | nil => simp [instanceAddrsFrom]
  | cons c rest ih =>
    simp only [instanceAddrsFrom, List.mem_append, List.mem_map, ih]
    constructor
    · rintro (⟨a, ha, rfl⟩ | ⟨k, c', a, hk, rfl, ha⟩)
      · exact ⟨0, c, a, by simp, by simp, ha⟩
      · refine ⟨k + 1, c', a, by simpa using hk, ?_, ha⟩
        have : i + 1 + k = i + (k + 1) := by omega
        rw [this]
    · rintro ⟨k, c', a, hk, rfl, ha⟩
      cases k with
      | zero =>
        left
        have hc : c' = c := by
          have := hk
          simp at this
          exact this.symm
        subst hc
        exact ⟨a, ha, by simp⟩
      | succ k' =>
        right
        refine ⟨k', c', a, by simpa using hk, ?_, ha⟩
        have : i + (k' + 1) = i + 1 + k' := by omega
        rw [this]

/-- An address is listed by `instanceAddrs` exactly when it is a valid
address whose node's type tag is INSTANCE. -/
theorem mem_instanceAddrs {a : List Nat} :
    ∀ {t : Node},
      a ∈ instanceAddrs t
        ↔ ∃ m, subtreeAt t a = some m ∧ m.type = NodeType.INSTANCE := by
  induction a with
  | nil =>
    intro t
    cases t with
    | mk i n ty cs =>
      simp only [instanceAddrs, List.mem_append, subtreeAt_nil, Option.some.injEq]
      constructor
      · rintro (hself | hfrom)
        · refine ⟨Node.mk i n ty cs, rfl, ?_⟩
          by_cases hty : ty = NodeType.INSTANCE
          · simpa using hty
          · simp [hty] at hself
        · rcases mem_instanceAddrsFrom.mp hfrom with ⟨k, c, b, _, hcons, _⟩
          exact absurd hcons (by simp)
      · rintro ⟨m, rfl, hm⟩
        left
        simp only [Node.type_mk] at hm
        simp [hm]
  | cons j a' ih =>
    intro t
    cases t with
    | mk i n ty cs =>
      have hself : (j :: a') ∈ (if ty = NodeType.INSTANCE then [([] : List Nat)] else []) ↔ False := by
        by_cases hty : ty = NodeType.INSTANCE <;> simp [hty]
      simp only [instanceAddrs, List.mem_append, hself, iff_false, false_or,
        mem_instanceAddrsFrom]
      constructor
      · rintro ⟨k, c, b, hk, hcons, hb⟩
        have hj : j = k ∧ a' = b := by
          constructor
          · have := congrArg (fun l => l.headI) hcons
            simpa using this
          · have := congrArg (fun l => l.tail) hcons
            simpa using this
        rcases hj with ⟨rfl, rfl⟩
        rcases ih.mp hb with ⟨m, hsub, hm⟩
        refine ⟨m, ?_, hm⟩
        rw [subtreeAt_cons (c := c) (by simpa using hk), hsub]
      · rintro ⟨m, hsub, hm⟩
        simp only [subtreeAt] at hsub
        rcases hcase : (Node.mk i n ty cs).children[j]? with _ | c
        · rw [hcase] at hsub; exact absurd hsub (by simp)
        · rw [hcase] at hsub
          exact ⟨j, c, a', by simpa using hcase, by simp, ih.mpr ⟨m, hsub, hm⟩⟩

/-- Master refinement lemma: on any entry state, the locator emits
exactly the `specRecord`s of the pre-order list of INSTANCE addresses. -/
theorem findAll_eq_specRecords (t : Node) :
    ∀ (level : Nat) (path : List String),
      findAllComponentInstances t level path
        = (instanceAddrs t).map (fun a => specRecord t a level path) := by
  induction t using Node.strongInduction with
  | h i n ty cs ihc =>
    intro level path
    set t := Node.mk i n ty cs with ht
    -- the children run, for an arbitrary suffix of `cs` starting at index `k`
    have hrun : ∀ (cs' : List Node) (k : Nat),
        (∀ j c, cs'[j]? = some c → cs[k + j]? = some c) →
        (∀ c ∈ cs', ∀ level' path', findAllComponentInstances c level' path'
            = (instanceAddrs c).map (fun a => specRecord c a level' path')) →
        findChildren cs'
            (level + (if ty = NodeType.INSTANCE then 1 else 0))
            (path ++ (if ty = NodeType.INSTANCE then [n] else []))
          = (instanceAddrsFrom k cs').map (fun a => specRecord t a level path) := by
      intro cs' k
      induction cs' generalizing k with
      | nil => intro _ _; rfl
      | cons c rest ihr =>
        intro hidx hrec
        have hc0 : cs[k]? = some c := by
          have := hidx 0 c (by simp)
          simpa using this
        have hblock :
            (instanceAddrs c).map
                (fun a => specRecord c a
                  (level + (if ty = NodeType.INSTANCE then 1 else 0))
                  (path ++ (if ty = NodeType.INSTANCE then [n] else [])))
              = ((instanceAddrs c).map (fun a => k :: a)).map
                  (fun a => specRecord t a level path) := by
          rw [List.map_map]
          refine (List.map_congr_left ?_).symm
          intro a ha
          rcases mem_instanceAddrs.mp ha with ⟨m, hm, _⟩
          have hj : t.children[k]? = some c := by simpa [ht] using hc0
          have := specRecord_cons hj hm level path
          simpa [ht] using this
        calc findChildren (c :: rest)
              (level + (if ty = NodeType.INSTANCE then 1 else 0))
              (path ++ (if ty = NodeType.INSTANCE then [n] else []))
            = findAllComponentInstances c
                (level + (if ty = NodeType.INSTANCE then 1 else 0))
                (path ++ (if ty = NodeType.INSTANCE then [n] else []))
              ++ findChildren rest
                (level + (if ty = NodeType.INSTANCE then 1 else 0))
                (path ++ (if ty = NodeType.INSTANCE then [n] else [])) := rfl
          _ = ((instanceAddrs c).map (fun a => k :: a)).map
                  (fun a => specRecord t a level path)
              ++ (instanceAddrsFrom (k + 1) rest).map (fun a => specRecord t a level path) := by
                rw [hrec c (by simp),
                  ihr (k + 1) (fun j c' hj => by
                    have := hidx (j + 1) c' (by simpa using hj)
                    have e : k + 1 + j = k + (j + 1) := by omega
                    rw [e]
                    exact this)
                  (fun c' hc' => hrec c' (by simp [hc']))]
                rw [hblock]
          _ = (instanceAddrsFrom k (c :: rest)).map (fun a => specRecord t a level path) := by
                simp [instanceAddrsFrom]
    by_cases hty : ty = NodeType.INSTANCE
    · subst hty
      have hself : specRecord t [] level path =
          { node := t
            level := level
            parentPath := path ++ [n]
            parentName := path.getLast? } := by
        simp [specRecord, ht]
      have hfc := hrun cs 0 (fun j c h => by simpa using h) ihc
      simp at hfc
      calc findAllComponentInstances t level path
          = { node := t
              level := level
              parentPath := path ++ [n]
              parentName := path.getLast? }
            :: findChildren cs (level + 1) (path ++ [n]) := by rw [ht]; rfl
        _ = specRecord t [] level path
            :: (instanceAddrsFrom 0 cs).map (fun a => specRecord t a level path) := by
              rw [hself, hfc]
        _ = (instanceAddrs t).map (fun a => specRecord t a level path) := by
              simp [ht, instanceAddrs]
    · have heq : findAllComponentInstances t level path = findChildren cs level path := by
        rw [ht]
        cases ty <;> first | (exact absurd rfl hty) | rfl
      have haddr : instanceAddrs t = instanceAddrsFrom 0 cs := by
        simp [ht, instanceAddrs, hty]
      have hfc := hrun cs 0 (fun j c h => by simpa using h) ihc
      simp only [if_neg hty, Nat.add_zero, List.append_nil] at hfc
      rw [heq, haddr, hfc]

theorem length_instanceAddrs : ∀ t : Node, (instanceAddrs t).length = countInstanceNodes t := by
  refine Node.strongInduction _ ?_
  intro i n ty cs ih
  have hfrom : ∀ (cs' : List Node) (k : Nat),
      (∀ c ∈ cs', (instanceAddrs c).length = countInstanceNodes c) →
      (instanceAddrsFrom k cs').length = countInstanceNodesList cs' := by
    intro cs' k
    induction cs' generalizing k with
    | nil => intro _; rfl
    | cons c rest ihr =>
      intro h
      simp [instanceAddrsFrom, countInstanceNodesList, h c (by simp),
        ihr (k + 1) (fun c' hc' => h c' (by simp [hc']))]
  cases ty <;> simp [instanceAddrs, countInstanceNodes, hfrom cs 0 ih] <;> omega

/-! ## Pre-order on addresses

`addrPreOrder a b` says the node at address `a` is met strictly before
the node at address `b` by a depth-first pre-order traversal that visits
children in their original order: either `a` is a strict ancestor
position of `b`, or the two addresses diverge at some point with `a`
continuing into an earlier child. -/

/-- `a` is the address of a strict ancestor of the node at `b`. -/
def addrStrictAncestor (a b : List Nat) : Prop :=
  a ≠ b ∧ ∃ s, a ++ s = b

/-- The two addresses leave their common prefix through different child
indices, `a` through the smaller one. -/
def addrEarlierSibling (a b : List Nat) : Prop :=
  ∃ p i j ra rb, i < j ∧ a = p ++ i :: ra ∧ b = p ++ j :: rb

def addrPreOrder (a b : List Nat) : Prop :=
  addrStrictAncestor a b ∨ addrEarlierSibling a b

theorem addrPreOrder_cons {a b : List Nat} (k : Nat) (h : addrPreOrder a b) :
    addrPreOrder (k :: a) (k :: b) := by
  rcases h with ⟨hne, s, hs⟩ | ⟨p, i, j, ra, rb, hij, ha, hb⟩
  · exact Or.inl ⟨by simpa using hne, s, by simp [hs]⟩
  · exact Or.inr ⟨k :: p, i, j, ra, rb, hij, by simp [ha], by simp [hb]⟩

theorem addrPreOrder_cons_lt {a b : List Nat} {k m : Nat} (hkm : k < m) :
    addrPreOrder (k :: a) (m :: b) :=
  Or.inr ⟨[], k, m, a, b, hkm, rfl, rfl⟩

theorem addrPreOrder_nil_cons (j : Nat) (b : List Nat) :
    addrPreOrder [] (j :: b) :=
  Or.inl ⟨by simp, j :: b, rfl⟩

theorem addrPreOrder_ne {a b : List Nat} (h : addrPreOrder a b) : a ≠ b := by
  rcases h with ⟨hne, _⟩ | ⟨p, i, j, ra, rb, hij, ha, hb⟩
  · exact hne
  · intro hab
    rw [ha, hb] at hab
    have := List.append_cancel_left hab
    simp only [List.cons.injEq] at this
    omega

theorem getElem?_append_cons_self (p r : List Nat) (x : Nat) :
    (p ++ x :: r)[p.length]? = some x := by
  rw [List.getElem?_append_right (Nat.le_refl _)]
  simp

theorem getElem?_append_cons_lt {p : List Nat} {x : Nat} {r : List Nat} {m : Nat}
    (hm : m < p.length) : (p ++ x :: r)[m]? = p[m]? := by
  rw [List.getElem?_append]
  simp [hm]

theorem addrPreOrder_asymm {a b : List Nat}
    (h1 : addrPreOrder a b) (h2 : addrPreOrder b a) : False := by
  rcases h1 with ⟨hne1, s, hs⟩ | ⟨p, i, j, ra, rb, hij, hap, hbp⟩
  · rcases h2 with ⟨_, u, hu⟩ | ⟨q, m, k, rb2, ra2, hmk, hbq, haq⟩
    · have hls := congrArg List.length hs
      have hlu := congrArg List.length hu
      simp only [List.length_append] at hls hlu
      have hzero : s.length = 0 := by omega
      rw [List.length_eq_zero] at hzero
      subst hzero
      simp only [List.append_nil] at hs
      exact hne1 hs
    · -- `b = a ++ s` while `a` and `b` diverge at index `q.length` with
      -- `b` taking the smaller branch: impossible.
      have hlen : q.length < a.length := by
        have := congrArg List.length haq
        simp only [List.length_append, List.length_cons] at this
        omega
      have hbv : b[q.length]? = some m := hbq ▸ getElem?_append_cons_self q rb2 m
      have hav : a[q.length]? = some k := haq ▸ getElem?_append_cons_self q ra2 k
      have : b[q.length]? = a[q.length]? := by
        rw [← hs, List.getElem?_append]
        simp [hlen]
      rw [hbv, hav] at this
      simp only [Option.some.injEq] at this
      omega
  · rcases h2 with ⟨_, u, hu⟩ | ⟨q, m, k, rb2, ra2, hmk, hbq, haq⟩
    · -- mirror image of the case above
      have hlen : p.length < b.length := by
        have := congrArg List.length hbp
        simp only [List.length_append, List.length_cons] at this
        omega
      have hav : a[p.length]? = some i := hap ▸ getElem?_append_cons_self p ra i
      have hbv : b[p.length]? = some j := hbp ▸ getElem?_append_cons_self p rb j
      have : a[p.length]? = b[p.length]? := by
        rw [← hu, List.getElem?_append]
        simp [hlen]
      rw [hav, hbv] at this
      simp only [Option.some.injEq] at this
      omega
    · have hai : a[p.length]? = some i := hap ▸ getElem?_append_cons_self p ra i
      have hbj : b[p.length]? = some j := hbp ▸ getElem?_append_cons_self p rb j
      have hak : a[q.length]? = some k := haq ▸ getElem?_append_cons_self q ra2 k
      have hbm : b[q.length]? = some m := hbq ▸ getElem?_append_cons_self q rb2 m
      rcases Nat.lt_trichotomy p.length q.length with hpq | hpq | hpq
      · have ha' : a[p.length]? = q[p.length]? := haq ▸ getElem?_append_cons_lt hpq
        have hb' : b[p.length]? = q[p.length]? := hbq ▸ getElem?_append_cons_lt hpq
        rw [hai] at ha'
        rw [hbj] at hb'
        rw [← hb'] at ha'
        simp only [Option.some.injEq] at ha'
        omega
      · rw [hpq] at hai hbj
        rw [hak] at hai
        rw [hbm] at hbj
        simp only [Option.some.injEq] at hai hbj
        omega
      · have ha' : a[q.length]? = p[q.length]? := hap ▸ getElem?_append_cons_lt hpq
        have hb' : b[q.length]? = p[q.length]? := hbp ▸ getElem?_append_cons_lt hpq
        rw [hak] at ha'
        rw [hbm] at hb'
        rw [← hb'] at ha'
        simp only [Option.some.injEq] at ha'
        omega

theorem instanceAddrsFrom_shape {x : List Nat} {i : Nat} {cs : List Node}
    (hx : x ∈ instanceAddrsFrom i cs) : ∃ j ys, x = j :: ys ∧ i ≤ j := by
  rcases mem_instanceAddrsFrom.mp hx with ⟨k, c, a, _, rfl, _⟩
  exact ⟨i + k, a, rfl, by omega⟩

/-- The address list produced by `instanceAddrs` is strictly ordered by
the depth-first pre-order relation. -/
theorem pairwise_instanceAddrs : ∀ t : Node, (instanceAddrs t).Pairwise addrPreOrder := by
  refine Node.strongInduction _ ?_
  intro i n ty cs ih
  have hfrom : ∀ (cs' : List Node) (k : Nat),
      (∀ c ∈ cs', (instanceAddrs c).Pairwise addrPreOrder) →
      (instanceAddrsFrom k cs').Pairwise addrPreOrder := by
    intro cs' k
    induction cs' generalizing k with
    | nil => intro _; simp [instanceAddrsFrom]
    | cons c rest ihr =>
      intro h
      simp only [instanceAddrsFrom]
      rw [List.pairwise_append]
      refine ⟨?_, ihr (k + 1) (fun c' hc' => h c' (by simp [hc'])), ?_⟩
      · rw [List.pairwise_map]
        exact (h c (by simp)).imp (fun hab => addrPreOrder_cons k hab)
      · rintro x hx y hy
        rcases List.mem_map.mp hx with ⟨a, _, rfl⟩
        rcases instanceAddrsFrom_shape hy with ⟨j, ys, rfl, hj⟩
        exact addrPreOrder_cons_lt (by omega)
  have hmain : (instanceAddrsFrom 0 cs).Pairwise addrPreOrder := hfrom cs 0 ih
  by_cases hty : ty = NodeType.INSTANCE
  · have heq : instanceAddrs (Node.mk i n ty cs) = [] :: instanceAddrsFrom 0 cs := by
      simp [instanceAddrs, hty]
    rw [heq]
    refine List.Pairwise.cons ?_ hmain
    intro y hy
    rcases instanceAddrsFrom_shape hy with ⟨j, ys, rfl, _⟩
    exact addrPreOrder_nil_cons j ys
  · have heq : instanceAddrs (Node.mk i n ty cs) = instanceAddrsFrom 0 cs := by
      simp [instanceAddrs, hty]
    rw [heq]
    exact hmain

theorem nodup_instanceAddrs (t : Node) : (instanceAddrs t).Nodup :=
  (pairwise_instanceAddrs t).imp (fun h => addrPreOrder_ne h)

/-- In a list strictly ordered by `addrPreOrder`, two related members
occupy positions in that order. -/
theorem precede_of_pairwise {l : List (List Nat)} (hp : l.Pairwise addrPreOrder)
    {a b : List Nat} (ha : a ∈ l) (hb : b ∈ l) (hab : addrPreOrder a b) :
    ∃ (i j : Nat), i < j ∧ l[i]? = some a ∧ l[j]? = some b := by
  rcases List.mem_iff_getElem.mp ha with ⟨i, hi, rfl⟩
  rcases List.mem_iff_getElem.mp hb with ⟨j, hj, rfl⟩
  have hR := List.pairwise_iff_getElem.mp hp
  rcases Nat.lt_trichotomy i j with hij | hij | hij
  · exact ⟨i, j, hij, List.getElem?_eq_getElem hi, List.getElem?_eq_getElem hj⟩
  · subst hij
    exact absurd rfl (addrPreOrder_ne hab)
  · exact (addrPreOrder_asymm hab (hR j i hj hi hij)).elim

/-- The issue list is the unlinked subsequence of the record list, in
record order, each record turned into its issue. -/
theorem scanIssues_eq_filter_map (resolve : Node → Resolution)
    (all rs : List InstanceRecord) :
    scanIssues resolve all rs
      = (rs.filter (fun r => !(isComponentLinked resolve r.node))).map (issueOf all) := by
  induction rs with
  | nil => rfl
  | cons r rest ih =>
    by_cases h : isComponentLinked resolve r.node <;>
      simp only [scanIssues, List.filterMap_cons, List.filter_cons, h, if_pos, if_neg,
        Bool.not_true, Bool.not_false, ite_true, ite_false, List.map_cons] <;>
      simpa [scanIssues] using ih

theorem length_filter_add_length_filter_not {α : Type} (l : List α) (p : α → Bool) :
    (l.filter p).length + (l.filter (fun a => !(p a))).length = l.length := by
  induction l with
  | nil => rfl
  | cons x xs ih => by_cases h : p x <;> simp [List.filter_cons, h] <;> omega

/-! ## Concrete scenarios -/

/-- A lone INSTANCE node used as scan root. -/
def c1Node : Node := Node.mk "a1" "A" NodeType.INSTANCE []

def c2AOut : Node := Node.mk "a1" "A" NodeType.INSTANCE []
def c2AIn : Node := Node.mk "a2" "A" NodeType.INSTANCE []
def c2B : Node := Node.mk "b1" "B" NodeType.INSTANCE [c2AIn]
/-- Root frame containing a top-level instance `A` (id `a1`) and an
instance `B` (id `b1`) that in turn contains another instance named `A`
(id `a2`). -/
def c2Root : Node := Node.mk "r1" "R" NodeType.FRAME [c2AOut, c2B]
/-- Oracle under which only `b1` resolves to a remote main component:
`b1` is linked, everything else is unlinked. -/
def c2Resolve : Node → Resolution := fun nd =>
  if nd.id = "b1" then Resolution.ok (some ⟨"m1", some true⟩)
  else Resolution.ok (some ⟨"m2", some false⟩)

def c3Icon : Node := Node.mk "icon1" "Icon" NodeType.INSTANCE []
def c3Btn : Node := Node.mk "btn1" "Btn" NodeType.INSTANCE [c3Icon]
/-- The spec's scenario tree: root `R` with child INSTANCE `Btn`
containing child INSTANCE `Icon`. -/
def c3Root : Node := Node.mk "root1" "R" NodeType.FRAME [c3Btn]
/-- Oracle under which every instance resolves to a local
(`remote = false`) main component: everything is unlinked. -/
def c3Resolve : Node → Resolution := fun _ => Resolution.ok (some ⟨"m", some false⟩)

/-! ## Claims -/

/-- C1: the emitted record does NOT keep the ancestor chain as it was
before the node was added.  For a lone INSTANCE node named `A` there are
no INSTANCE ancestors at all, yet the record's `parentPath` comes out as
`["A"]` — it contains the record's own node name, because the source
pushes `node.name` onto the very array the record references after the
record is created.  (`parentName`, read before the push, is still
`none`.)  This refutes both the chain-content part and the
never-mutated-after-creation part of the claim. -/
theorem c1_record_chain_contains_own_name :
    (findAllComponentInstances c1Node 0 []).map (fun r => (r.parentPath, r.parentName))
      = [(["A"], none)] := by
  rfl

/-- C2: an Issue can get a `parentId` although no other record matches
the claim's condition (name = nearest ancestor instance name, level one
less, itself unlinked).  In `c2Root`, the issue for node `a2` (named
`A`, level 1) has nearest ancestor instance name `B`; the only record
named `B` at level 0 is `b1`, which is linked, so per the claim
`parentId` must be absent — but the code stores `some "a1"`, because it
looks up the *last* element of the mutated chain (the issue's own name
`A`) and never checks the link status of the record it finds. -/
theorem c2_parentId_set_without_unlinked_ancestor_match :
    (scanFrameForComponents c2Resolve c2Root).issues.map
        (fun i => (i.name, i.level, i.parentName, i.parentId))
      = [("A", 0, none, none), ("A", 1, some "B", some "a1")]
    ∧ isComponentLinked c2Resolve c2B = true
    ∧ (findAllComponentInstances c2Root 0 []).map
        (fun r => (r.node.name, r.node.id, r.level))
      = [("A", "a1", 0), ("B", "b1", 0), ("A", "a2", 1)] := by
  refine ⟨?_, ?_, ?_⟩ <;> rfl

/-- C3: in the spec's Btn/Icon scenario (both unlinked) the scan does
produce exactly two issues and Btn's `parentId` is absent, but Icon's
`parentId` is also absent — not Btn's id `btn1` as the claim states —
because the parent lookup searches for a record named `Icon` (the last
element of Icon's mutated chain) at level 0 and finds none. -/
theorem c3_nested_scenario_icon_parentId_absent :
    (scanFrameForComponents c3Resolve c3Root).issues.map
        (fun i => (i.name, i.id, i.level, i.parentId))
      = [("Btn", "btn1", 0, none), ("Icon", "icon1", 1, none)]
    ∧ (scanFrameForComponents c3Resolve c3Root).totalIssues = 2 := by
  exact ⟨rfl, rfl⟩

/-- C4: an instance is classified linked iff its resolution succeeds
with a main component whose remote flag is exactly `true`; every other
outcome (null result, thrown error, `remote` absent or `false`) is
unlinked.  Whatever the oracle does — including throwing on every
node — the scan still returns a complete `ScanResult` covering every
located record: `totalComponents` counts all records and the issue list
is exactly the unlinked records. -/
theorem c4_linked_iff_remote_true_and_scan_total
    (resolve : Node → Resolution) (nd : Node) (frame : Node) :
    (isComponentLinked resolve nd = true
      ↔ ∃ mc, resolve nd = Resolution.ok (some mc) ∧ mc.remote = some true)
    ∧ (scanFrameForComponents resolve frame).totalComponents
        = (findAllComponentInstances frame 0 []).length
    ∧ (scanFrameForComponents resolve frame).issues.length
        = ((findAllComponentInstances frame 0 []).filter
            (fun r => !(isComponentLinked resolve r.node))).length := by
  refine ⟨?_, rfl, ?_⟩
  · cases h : resolve nd with
    | ok omc =>
      cases omc with
      | none => simp [isComponentLinked, h]
      | some mc => simp [isComponentLinked, h]
    | err => simp [isComponentLinked, h]
  · simp [scanFrameForComponents, scanIssues_eq_filter_map]

/-- C5: the locator emits exactly one record per INSTANCE-typed node of
the tree — positionally, record `k` is the instance at the `k`-th
pre-order INSTANCE address, the address list contains precisely the
positions holding INSTANCE nodes, without duplicates, and the record
count is the INSTANCE-node count — and each record's level equals the
number of INSTANCE-typed strict ancestors of its node. -/
theorem c5_locator_exactly_instance_nodes_with_ancestor_levels (t : Node) :
    (findAllComponentInstances t 0 []).map (fun r => r.node)
        = (instanceAddrs t).map (fun a => (subtreeAt t a).getD t)
    ∧ (∀ a, a ∈ instanceAddrs t
        ↔ ∃ m, subtreeAt t a = some m ∧ m.type = NodeType.INSTANCE)
    ∧ (instanceAddrs t).Nodup
    ∧ (findAllComponentInstances t 0 []).length = countInstanceNodes t
    ∧ (findAllComponentInstances t 0 []).map (fun r => r.level)
        = (instanceAddrs t).map (fun a => instanceAncestorCount t a) := by
  have hmaster := findAll_eq_specRecords t 0 []
  refine ⟨?_, fun a => mem_instanceAddrs, nodup_instanceAddrs t, ?_, ?_⟩
  · rw [hmaster, List.map_map]
    rfl
  · rw [hmaster, List.length_map, length_instanceAddrs]
  · rw [hmaster, List.map_map]
    apply List.map_congr_left
    intro a _
    simp [specRecord, instanceAncestorCount]

/-- Oracle that throws on every lookup. -/
def errResolve : Node → Resolution := fun _ => Resolution.err

def c6Inner : Node := Node.mk "w2" "V" NodeType.INSTANCE []
/-- An INSTANCE root containing one INSTANCE child. -/
def c6Tree : Node := Node.mk "w1" "W" NodeType.INSTANCE [c6Inner]

/-- C6: whenever address `a` precedes address `b` in depth-first
pre-order — `a` a strict ancestor position of `b`, or `a` leaving their
common prefix through an earlier child — the record of the instance at
`a` is emitted at a strictly smaller position than the record of the
instance at `b`; and the audit's issue sequence is exactly the unlinked
subsequence of the records, in emission order. -/
theorem c6_preorder_emission_and_issue_order (t : Node) (resolve : Node → Resolution)
    {a b : List Nat} (ha : a ∈ instanceAddrs t) (hb : b ∈ instanceAddrs t)
    (hab : addrPreOrder a b) :
    (∃ (i j : Nat), i < j
      ∧ ((findAllComponentInstances t 0 [])[i]?).map (fun r => r.node) = subtreeAt t a
      ∧ ((findAllComponentInstances t 0 [])[j]?).map (fun r => r.node) = subtreeAt t b)
    ∧ (scanFrameForComponents resolve t).issues
        = ((findAllComponentInstances t 0 []).filter
            (fun r => !(isComponentLinked resolve r.node))).map
            (issueOf (findAllComponentInstances t 0 [])) := by
  constructor
  · obtain ⟨i, j, hij, hia, hjb⟩ :=
      precede_of_pairwise (pairwise_instanceAddrs t) ha hb hab
    rcases mem_instanceAddrs.mp ha with ⟨ma, hma, _⟩
    rcases mem_instanceAddrs.mp hb with ⟨mb, hmb, _⟩
    refine ⟨i, j, hij, ?_, ?_⟩
    · rw [findAll_eq_specRecords, List.getElem?_map, hia]
      simp [specRecord, hma]
    · rw [findAll_eq_specRecords, List.getElem?_map, hjb]
      simp [specRecord, hmb]
  · simp [scanFrameForComponents, scanIssues_eq_filter_map]

/-- C6 witness: instantiated on `c6Tree` at the root address and its
child address. -/
theorem c6_preorder_emission_witness :
    (([] : List Nat) ∈ instanceAddrs c6Tree ∧ [0] ∈ instanceAddrs c6Tree
      ∧ addrPreOrder [] [0])
    ∧ ((∃ (i j : Nat), i < j
        ∧ ((findAllComponentInstances c6Tree 0 [])[i]?).map (fun r => r.node)
            = subtreeAt c6Tree []
        ∧ ((findAllComponentInstances c6Tree 0 [])[j]?).map (fun r => r.node)
            = subtreeAt c6Tree [0])
      ∧ (scanFrameForComponents errResolve c6Tree).issues
          = ((findAllComponentInstances c6Tree 0 []).filter
              (fun r => !(isComponentLinked errResolve r.node))).map
              (issueOf (findAllComponentInstances c6Tree 0 []))) :=
  ⟨⟨by decide, by decide, addrPreOrder_nil_cons 0 []⟩,
    c6_preorder_emission_and_issue_order c6Tree errResolve
      (by decide) (by decide) (addrPreOrder_nil_cons 0 [])⟩

/-- C7: a scan request is rejected with an error — and no `ScanResult`
is produced — exactly when the selection is empty or the selected root's
type is not FRAME, COMPONENT or COMPONENT_SET; otherwise the scan runs
on the selected root and its `ScanResult` is delivered. -/
theorem c7_invalid_root_rejected_otherwise_scan
    (resolve : Node → Resolution) (selection : List Node) :
    (selection = [] →
      handleScanFrame resolve selection
        = Except.error "Por favor, selecciona un frame para escanear.")
    ∧ (∀ nd rest, selection = nd :: rest → isValidRootType nd.type = false →
      handleScanFrame resolve selection
        = Except.error "Por favor, selecciona un Frame, Component o Component Set.")
    ∧ (∀ nd rest, selection = nd :: rest → isValidRootType nd.type = true →
      handleScanFrame resolve selection = Except.ok (scanFrameForComponents resolve nd))
    ∧ (∀ ty : NodeType, isValidRootType ty = true
        ↔ (ty = NodeType.FRAME ∨ ty = NodeType.COMPONENT ∨ ty = NodeType.COMPONENT_SET)) := by
  refine ⟨?_, ?_, ?_, ?_⟩
  · rintro rfl
    rfl
  · rintro nd rest rfl h
    simp [handleScanFrame, h]
  · rintro nd rest rfl h
    simp [handleScanFrame, h]
  · intro ty
    cases ty <;> decide

/-- C7 witness: a plain-shape root (type tag outside the accepted set)
is rejected before any traversal. -/
theorem c7_invalid_root_witness :
    [Node.mk "s1" "Shape" NodeType.OTHER []]
        = (Node.mk "s1" "Shape" NodeType.OTHER []) :: []
    ∧ isValidRootType (Node.mk "s1" "Shape" NodeType.OTHER []).type = false
    ∧ handleScanFrame errResolve [Node.mk "s1" "Shape" NodeType.OTHER []]
        = Except.error "Por favor, selecciona un Frame, Component o Component Set." :=
  ⟨rfl, by decide,
    (c7_invalid_root_rejected_otherwise_scan errResolve
        [Node.mk "s1" "Shape" NodeType.OTHER []]).2.1
      (Node.mk "s1" "Shape" NodeType.OTHER []) [] rfl (by decide)⟩

/-- C8: the scan's totals always satisfy the accounting identities:
`totalComponents` = `totalIssues` + number of linked records,
`totalComponents` = number of records examined, `totalIssues` = length
of the issue list, and `frameName` is the scan root's display name. -/
theorem c8_scanresult_totals (resolve : Node → Resolution) (frame : Node) :
    (scanFrameForComponents resolve frame).totalComponents
        = (scanFrameForComponents resolve frame).totalIssues
          + ((findAllComponentInstances frame 0 []).filter
              (fun r => isComponentLinked resolve r.node)).length
    ∧ (scanFrameForComponents resolve frame).totalComponents
        = (findAllComponentInstances frame 0 []).length
    ∧ (scanFrameForComponents resolve frame).totalIssues
        = (scanFrameForComponents resolve frame).issues.length
    ∧ (scanFrameForComponents resolve frame).frameName = frame.name := by
  refine ⟨?_, rfl, rfl, rfl⟩
  have h := length_filter_add_length_filter_not (findAllComponentInstances frame 0 [])
      (fun r => isComponentLinked resolve r.node)
  simp only [scanFrameForComponents]
  rw [scanIssues_eq_filter_map, List.length_map]
  omega

def resolveNoneA : Node → Resolution := fun _ => Resolution.ok none
def resolveNoneB : Node → Resolution := fun nd =>
  if nd.id = nd.id then Resolution.ok none else Resolution.err
def c9Tree : Node := Node.mk "r9" "R9" NodeType.FRAME [Node.mk "i9" "I9" NodeType.INSTANCE []]

/-- C9: the scan is a pure function of the tree and the pointwise
behaviour of the resolution oracle: two runs over the same tree with
oracles that agree on every node produce identical `ScanResult`s, in
content and order — so repeating `locate` + `audit` with unchanged
external link data reproduces the same result. -/
theorem c9_scan_deterministic (resolve1 resolve2 : Node → Resolution) (t : Node)
    (h : ∀ nd, resolve1 nd = resolve2 nd) :
    scanFrameForComponents resolve1 t = scanFrameForComponents resolve2 t := by
  rw [funext h]

/-- C9 witness: two syntactically different oracles with equal pointwise
behaviour yield the same scan of `c9Tree`. -/
theorem c9_scan_deterministic_witness :
    (∀ nd, resolveNoneA nd = resolveNoneB nd)
    ∧ scanFrameForComponents resolveNoneA c9Tree
        = scanFrameForComponents resolveNoneB c9Tree :=
  ⟨fun nd => by simp [resolveNoneA, resolveNoneB],
    c9_scan_deterministic resolveNoneA resolveNoneB c9Tree
      (fun nd => by simp [resolveNoneA, resolveNoneB])⟩

/-- C10: positionally, each record's `parentName` is the last element of
the ancestor-instance name chain of its address — the display name of
its nearest strict INSTANCE ancestor — and that last element is absent
exactly when the node has no INSTANCE-typed strict ancestor. -/
theorem c10_parentName_nearest_instance_ancestor (t : Node) :
    (findAllComponentInstances t 0 []).map (fun r => r.parentName)
        = (instanceAddrs t).map (fun a => (chainAt t a).getLast?)
    ∧ (∀ a : List Nat, ((chainAt t a).getLast? = none ↔ instanceAncestorCount t a = 0)) := by
  constructor
  · rw [findAll_eq_specRecords, List.map_map]
    rfl
  · intro a
    rw [List.getLast?_eq_none_iff]
    rw [instanceAncestorCount, List.length_eq_zero]
